import Mathlib

/-!
Verification of the `ediff` utility (src/ediff.c): a shallow embedding of
its argument-vector builder, descriptor-table primitives, the producer and
consumer children, and the orchestrating `main`, together with theorems
checking the natural-language specification against this embedding.

Modelling conventions:
* C `char **argv` arrays of the `struct args` builder become `List Slot`,
  where `Slot.null` is a NULL pointer, `Slot.str s` an owned string, and
  `Slot.undef` indeterminate memory (the tail of a grown `realloc` block,
  which the C code never reads before writing).
* The per-process file-descriptor table becomes `List (Option FdEntry)`
  indexed by descriptor number; `none` is a closed/free slot.  Kernel pipe
  objects are identified by a counter `nextPipe`; descriptors carry the
  object they refer to plus their close-on-exec flag.
* Fallible system calls return `Option`; `none` is the `err(1, ...)` fatal
  path of the C code.
* `exec*` never returns on success, so a child is modelled as a function
  producing the terminal `ExecCall` (program, argument list, and the
  descriptor table at the moment of the exec); `none` means the child died
  on `err(1, ...)` before reaching the exec.
* `fork` duplicates the parent's state: each child runs on its own copy of
  the `Sys` value the parent had at the fork.
-/

/-- One cell of the C `char **argv` array of `struct args`. -/
inductive Slot where
  | null : Slot
  | str (s : String) : Slot
  | undef : Slot
  deriving DecidableEq

/-- The C `struct args { size_t capacity; size_t argc; char **argv; }`.
`argv` has exactly `capacity` cells in the C allocation; the model keeps
the whole allocation as a list. -/
structure Args where
  capacity : Nat
  argc : Nat
  argv : List Slot
  deriving DecidableEq

/-- `args_init`: `calloc(starting_capacity, sizeof(char *))` zeroes the
allocation, so every cell starts as NULL; `argc` starts at 0.  The C
`assert(starting_capacity > 0)` appears as a hypothesis of the theorems. -/
def args_init (starting_capacity : Nat) : Args :=
  { capacity := starting_capacity
    argc := 0
    argv := List.replicate starting_capacity Slot.null }

/-- `args_add`: if `argc + 1 == capacity`, double the capacity first
(`realloc` keeps the old cells and leaves the new area indeterminate),
then `argc++; argv[argc-1] = strdup(s); argv[argc] = NULL;`. -/
def args_add (a : Args) (s : String) : Args :=
  let a' :=
    if a.argc + 1 = a.capacity then
      { a with
        capacity := a.capacity * 2
        argv := (a.argv ++ List.replicate (a.capacity * 2) Slot.undef).take
          (a.capacity * 2) }
    else a
  { a' with
    argc := a'.argc + 1
    argv := (a'.argv.set a'.argc (Slot.str s)).set (a'.argc + 1) Slot.null }

/-- The state reached from `args_init cap` by pushing the strings of `ss`
in order. -/
def args_run (cap : Nat) (ss : List String) : Args :=
  ss.foldl args_add (args_init cap)

/-- What `execv*` reads from a `char **argv`: the strings up to the first
NULL.  (Reading an indeterminate cell would be undefined behaviour; the
model stops there, and the well-formedness invariant rules it out.) -/
def argvUpToNull : List Slot → List String
  | [] => []
  | Slot.str s :: rest => s :: argvUpToNull rest
  | Slot.null :: _ => []
  | Slot.undef :: _ => []

/-- Well-formedness of an `Args` holding exactly the strings `l`: the
occupied prefix is `l`, followed by the NULL sentinel, inside an
allocation of `capacity` cells with room for at least the sentinel. -/
def ArgsShape (a : Args) (l : List String) : Prop :=
  a.argc = l.length ∧ a.argv.length = a.capacity ∧ a.argc < a.capacity ∧
    ∃ rest, a.argv = l.map Slot.str ++ Slot.null :: rest

/-- `DIFF_MAXFD`: the highest descriptor number the consumer child passes
to diff. -/
def DIFF_MAXFD : Nat := 4

/-- `DEFAULT_SHELL`. -/
def DEFAULT_SHELL : String := "/bin/sh"

/-- `DIFF_CMD`. -/
def DIFF_CMD : String := "diff"

/-- A kernel object a descriptor can refer to: one end of an anonymous
pipe (identified by order of creation within the modelled process), or
some other pre-existing stream of the initial descriptor state. -/
inductive KObj where
  | readEnd (pipeId : Nat) : KObj
  | writeEnd (pipeId : Nat) : KObj
  | other (id : Nat) : KObj
  deriving DecidableEq

/-- One open descriptor: the object it refers to plus its `FD_CLOEXEC`
flag. -/
structure FdEntry where
  obj : KObj
  cloexec : Bool
  deriving DecidableEq

/-- A process descriptor table: slot `i` is descriptor number `i`; `none`
is a free number.  The list is extended on demand. -/
abbrev FdTable := List (Option FdEntry)

/-- Process-visible system state: the descriptor table plus the id the
next created pipe will receive. -/
structure Sys where
  table : FdTable
  nextPipe : Nat
  deriving DecidableEq

/-- The entry (if any) at descriptor number `fd`. -/
def lookupFd (s : Sys) (fd : Nat) : Option FdEntry :=
  s.table.getD fd none

/-- Install `e` at descriptor number `fd`, growing the table with free
slots as needed. -/
def setFd (t : FdTable) (fd : Nat) (e : Option FdEntry) : FdTable :=
  (t ++ List.replicate (fd + 1 - t.length) none).set fd e

/-- The lowest free descriptor number `≥ ge`: what the kernel hands out
for `pipe()` (`ge = 0`) and `F_DUPFD`/`F_DUPFD_CLOEXEC`. -/
def lowestFree (t : FdTable) (ge : Nat) : Nat :=
  ((List.range (ge + t.length + 1)).find? fun i =>
    decide (ge ≤ i) && (t.getD i none).isNone).getD (ge + t.length)

/-- `pipe(2)`: allocate the two lowest free descriptor numbers (read end
first), both referring to a fresh pipe object, close-on-exec clear. -/
def sys_pipe (s : Sys) : (Nat × Nat) × Sys :=
  let r := lowestFree s.table 0
  let t1 := setFd s.table r (some ⟨KObj.readEnd s.nextPipe, false⟩)
  let w := lowestFree t1 0
  let t2 := setFd t1 w (some ⟨KObj.writeEnd s.nextPipe, false⟩)
  ((r, w), ⟨t2, s.nextPipe + 1⟩)

/-- `close(2)` (the C code never checks its result). -/
def sys_close (s : Sys) (fd : Nat) : Sys :=
  { s with table := setFd s.table fd none }

/-- `dup2(2)`: `none` is the failure (`EBADF`) case; on `oldfd = newfd`
the call succeeds without touching the table; otherwise `newfd` comes to
refer to `oldfd`'s object with close-on-exec clear. -/
def sys_dup2 (s : Sys) (oldfd newfd : Nat) : Option Sys :=
  match lookupFd s oldfd with
  | none => none
  | some e =>
    if oldfd = newfd then some s
    else some { s with table := setFd s.table newfd (some ⟨e.obj, false⟩) }

/-- `clear_cloexec`: `fcntl(F_GETFD)`, clear `FD_CLOEXEC`, `fcntl(F_SETFD)`;
fails (fatal `err(1, ...)` in the C code) on a bad descriptor. -/
def clear_cloexec (s : Sys) (fd : Nat) : Option Sys :=
  match lookupFd s fd with
  | none => none
  | some e => some { s with table := setFd s.table fd (some ⟨e.obj, false⟩) }

/-- `xdup_ge`: `fcntl(fd, F_DUPFD_CLOEXEC, ge)` — duplicate `fd` to the
lowest free descriptor number `≥ ge`, close-on-exec set atomically as part
of the duplication; the `err(1, ...)` path on failure is `none`. -/
def xdup_ge (s : Sys) (fd ge : Nat) : Option (Nat × Sys) :=
  match lookupFd s fd with
  | none => none
  | some e =>
    let n := lowestFree s.table ge
    some (n, { s with table := setFd s.table n (some ⟨e.obj, true⟩) })

/-- `closed_reader`: make `fd` an always-EOF source — create a pipe, close
its write end immediately, and if `fd` is not already the read end, `dup2`
the read end onto `fd` and close the read end's original number. -/
def closed_reader (s : Sys) (fd : Nat) : Option Sys :=
  let pr := sys_pipe s
  let s1 := sys_close pr.2 pr.1.2
  if fd ≠ pr.1.1 then
    match sys_dup2 s1 pr.1.1 fd with
    | none => none
    | some s2 => some (sys_close s2 pr.1.1)
  else some s1

/-- Bound on the pipe ids an object may mention. -/
def objWF (o : KObj) (n : Nat) : Bool :=
  match o with
  | KObj.readEnd p => decide (p < n)
  | KObj.writeEnd p => decide (p < n)
  | KObj.other _ => true

/-- Bound on the pipe id an open slot may mention. -/
def entryWF (e : Option FdEntry) (n : Nat) : Bool :=
  match e with
  | none => true
  | some e => objWF e.obj n

/-- Bookkeeping well-formedness of a state: no descriptor refers to a pipe
id that has not been handed out yet.  Every real initial descriptor state
of the calling process is representable by a well-formed `Sys` (its
pre-existing streams are `KObj.other` objects or pipes already counted). -/
def sysWF (s : Sys) : Bool :=
  s.table.all fun e => entryWF e s.nextPipe

/-- Does some descriptor of `s` refer to the open write end of pipe
`pid`? -/
def hasWriter (s : Sys) (pid : Nat) : Bool :=
  s.table.any fun e =>
    match e with
    | some e => e.obj == KObj.writeEnd pid
    | none => false

/-- Result of a `read` on a descriptor in the modelled pre-exec world,
where no pipe has been written yet: a pipe read end yields end-of-stream
exactly when no write end of its pipe is open. -/
inductive ReadResult where
  | eof : ReadResult
  | wouldBlock : ReadResult
  | badFd : ReadResult
  | fromOther : ReadResult
  deriving DecidableEq

/-- Reading from descriptor `fd` of `s` (pre-exec world, all pipes
empty). -/
def sys_read (s : Sys) (fd : Nat) : ReadResult :=
  match lookupFd s fd with
  | none => ReadResult.badFd
  | some e =>
    match e.obj with
    | KObj.readEnd pid =>
      if hasWriter s pid then ReadResult.wouldBlock else ReadResult.eof
    | KObj.writeEnd _ => ReadResult.badFd
    | KObj.other _ => ReadResult.fromOther

/-- `fd` is an always-EOF source in `s`: it refers to the read end of a
pipe with no open write end, with close-on-exec clear so that it survives
into the next program image. -/
def alwaysEofAt (s : Sys) (fd : Nat) : Prop :=
  ∃ pid, lookupFd s fd = some ⟨KObj.readEnd pid, false⟩ ∧
    hasWriter s pid = false

/-- A successful `exec*`: the program, the argument vector handed to it,
the descriptor table at the moment of the exec, and whether the program is
resolved through PATH (`execvp`/`execlp`) or is a literal path
(`execl`). -/
structure ExecCall where
  prog : String
  argv : List String
  sys : Sys
  viaPath : Bool
  deriving DecidableEq

/-- The `producer` child (src/ediff.c lines 131-140): `dup2(pout, 1)`,
`clear_cloexec(1)`, `closed_reader(0)`, then
`execl(shell, shell, "-c", cmd, NULL)`.  The exec never returns on
success, so the child is the `ExecCall` it ends in; `none` is a child that
died on `err(1, ...)`. -/
def producer (s0 : Sys) (shell cmd : String) (pout : Nat) :
    Option ExecCall := do
  let s1 ← sys_dup2 s0 pout 1
  let s2 ← clear_cloexec s1 1
  let s3 ← closed_reader s2 0
  some { prog := shell, argv := [shell, "-c", cmd], sys := s3,
         viaPath := false }

/-- The consumer child (src/ediff.c lines 208-232): `dup2(pa[0], 3)` and
`dup2(pb[0], 4)` (results unchecked in the C code, hence `getD`),
`clear_cloexec(3)`, `clear_cloexec(4)`, `closed_reader(0)`, six
`args_add` calls, then `execvp(DIFF_CMD, a.argv)`. -/
def consumer (s0 : Sys) (a : Args) (cmda cmdb : String) (pa0 pb0 : Nat) :
    Option ExecCall := do
  let s1 := (sys_dup2 s0 pa0 3).getD s0
  let s2 := (sys_dup2 s1 pb0 4).getD s1
  let s3 ← clear_cloexec s2 3
  let s4 ← clear_cloexec s3 4
  let s5 ← closed_reader s4 0
  let a1 := args_add a "--label"
  let a2 := args_add a1 cmda
  let a3 := args_add a2 "/proc/self/fd/3"
  let a4 := args_add a3 "--label"
  let a5 := args_add a4 cmdb
  let a6 := args_add a5 "/proc/self/fd/4"
  some { prog := DIFF_CMD, argv := argvUpToNull a6.argv, sys := s5,
         viaPath := true }

/-- src/ediff.c lines 178-190: create pipe A, re-home both ends to
`≥ DIFF_MAXFD + 1` with `xdup_ge`, close the originals; same for pipe
B. -/
def setupPipes (s0 : Sys) : Option ((Nat × Nat) × (Nat × Nat) × Sys) := do
  let pr := sys_pipe s0
  let (pa0, s2) ← xdup_ge pr.2 pr.1.1 (DIFF_MAXFD + 1)
  let (pa1, s3) ← xdup_ge s2 pr.1.2 (DIFF_MAXFD + 1)
  let s4 := sys_close (sys_close s3 pr.1.1) pr.1.2
  let qr := sys_pipe s4
  let (pb0, s6) ← xdup_ge qr.2 qr.1.1 (DIFF_MAXFD + 1)
  let (pb1, s7) ← xdup_ge s6 qr.1.2 (DIFF_MAXFD + 1)
  let s8 := sys_close (sys_close s7 qr.1.1) qr.1.2
  some ((pa0, pa1), (pb0, pb1), s8)

/-- The usage message printed to standard error when `argc < 3`. -/
def usageMsg (prog : String) : String :=
  "Usage: " ++ prog ++
    " [diff args] \x27shell command 1\x27 \x27shell command 2\x27\n"

/-- The diff flags `main` forwards: the default `-u` when exactly two
positional arguments are given, otherwise `argv[1] .. argv[argc-3]`
verbatim. -/
def flagsOf (argv : List String) : List String :=
  if argv.length = 3 then ["-u"]
  else (argv.drop 1).take (argv.length - 3)

/-- Everything observable about a run of `main` that passes the usage
check: commands, shell, the re-homed pipe descriptor numbers, the parent's
state at the forks, the three children (each the exec it reaches, or
`none` if it died first), the parent's state after closing its pipe
copies, the status collected by `waitpid` on the consumer child, and the
parent's exit code. -/
structure RunOk where
  cmda : String
  cmdb : String
  shell : String
  pa : Nat × Nat
  pb : Nat × Nat
  forkSys : Sys
  prodA : Option ExecCall
  prodB : Option ExecCall
  cons : Option ExecCall
  parentSys : Sys
  waitStatus : Nat
  exitCode : Nat

/-- Outcome of a run of `main`: the usage-error path (message to standard
error, exit code, process state untouched, no children), a fatal
`err(1, ...)` in the parent before the forks, or a full run. -/
inductive Outcome where
  | usage (s : Sys) (msg : String) (code : Nat) : Outcome
  | fatal : Outcome
  | ok (r : RunOk) : Outcome

/-- src/ediff.c `main`: build the argument vector (name, then `-u` or the
forwarded flags), check usage, pick the shell from `SHELL` (the `env`
parameter) or `DEFAULT_SHELL`, set up both pipes above the descriptor
floor, fork the two producers and the consumer (each child running on its
own copy of the parent's state), close the parent's pipe copies, wait for
the consumer child (obtaining `diffStatus`, which the code ignores), and
return 0. -/
def run_main (s0 : Sys) (env : Option String) (argv : List String)
    (diffStatus : Nat) : Outcome :=
  let a := args_add (args_init 2) DIFF_CMD
  if argv.length < 3 then
    Outcome.usage s0 (usageMsg (argv.getD 0 "")) 2
  else
    let a :=
      if argv.length = 3 then args_add a "-u"
      else ((argv.drop 1).take (argv.length - 3)).foldl args_add a
    let cmda := argv.getD (argv.length - 2) ""
    let cmdb := argv.getD (argv.length - 1) ""
    let shell := env.getD DEFAULT_SHELL
    match setupPipes s0 with
    | none => Outcome.fatal
    | some (pa, pb, sF) =>
      Outcome.ok
        { cmda := cmda
          cmdb := cmdb
          shell := shell
          pa := pa
          pb := pb
          forkSys := sF
          prodA := producer sF shell cmda pa.2
          prodB := producer sF shell cmdb pb.2
          cons := consumer sF a cmda cmdb pa.1 pb.1
          parentSys :=
            sys_close (sys_close (sys_close (sys_close sF pa.1) pa.2) pb.1)
              pb.2
          waitStatus := diffStatus
          exitCode := 0 }

/-- A concrete initial state for witnesses: stdin, stdout, stderr open on
non-pipe streams. -/
def initSys : Sys :=
  { table := [some ⟨KObj.other 0, false⟩, some ⟨KObj.other 1, false⟩,
      some ⟨KObj.other 2, false⟩]
    nextPipe := 0 }

/-! ## Theorems about the argument-vector builder -/

theorem argsShape_init (cap : Nat) (hcap : 0 < cap) :
    ArgsShape (args_init cap) [] := by
  refine ⟨rfl, by simp [args_init], by simpa [args_init] using hcap, ?_⟩
  refine ⟨List.replicate (cap - 1) Slot.null, ?_⟩
  simp only [args_init, List.map_nil, List.nil_append]
  cases cap with
  | zero => exact absurd hcap (by simp)
  | succ n => simp [List.replicate_succ]

theorem argsShape_add (a : Args) (l : List String) (s : String)
    (h : ArgsShape a l) : ArgsShape (args_add a s) (l ++ [s]) := by
  obtain ⟨hargc, hlen, hlt, rest, hshape⟩ := h
  unfold args_add
  by_cases hgrow : a.argc + 1 = a.capacity
  · -- growth case: the allocation was exactly full up to the sentinel
    have hrest : rest = [] := by
      have : a.argv.length = l.length + (1 + rest.length) := by
        simp [hshape]; omega
      have : rest.length = 0 := by omega
      exact List.eq_nil_of_length_eq_zero this
    subst hrest
    have hcap : a.capacity = l.length + 1 := by omega
    simp only [if_pos hgrow]
    refine ⟨by simp [hargc], ?_, ?_, ?_⟩
    · simp only [List.length_set, List.length_take, List.length_append,
        List.length_replicate]
      omega
    · show a.argc + 1 < a.capacity * 2
      omega
    · refine ⟨List.replicate (a.capacity * 2 - (l.length + 2)) Slot.undef, ?_⟩
      have htake : (a.argv ++ List.replicate (a.capacity * 2) Slot.undef).take
          (a.capacity * 2) =
          l.map Slot.str ++ Slot.null ::
            List.replicate (a.capacity * 2 - (l.length + 1)) Slot.undef := by
        rw [hshape]
        have h0 : (l.map Slot.str ++ Slot.null :: ([] : List Slot)) =
            l.map Slot.str ++ [Slot.null] := by simp
        rw [h0, List.take_append_eq_append_take,
          List.take_of_length_le (by simp; omega), List.take_replicate]
        have h2 : min (a.capacity * 2 - (l.map Slot.str ++ [Slot.null]).length)
            (a.capacity * 2) = a.capacity * 2 - (l.length + 1) := by
          simp only [List.length_append, List.length_map, List.length_cons,
            List.length_nil]
          omega
        rw [h2]
        simp
      rw [htake, hargc]
      have hset1 : (l.map Slot.str ++ Slot.null ::
          List.replicate (a.capacity * 2 - (l.length + 1)) Slot.undef).set
            l.length (Slot.str s) =
          l.map Slot.str ++ Slot.str s ::
            List.replicate (a.capacity * 2 - (l.length + 1)) Slot.undef := by
        rw [List.set_append_right _ _ (by simp)]
        simp
      rw [hset1]
      have hrep : List.replicate (a.capacity * 2 - (l.length + 1)) Slot.undef =
          Slot.undef :: List.replicate (a.capacity * 2 - (l.length + 2))
            Slot.undef := by
        have : a.capacity * 2 - (l.length + 1) =
            (a.capacity * 2 - (l.length + 2)) + 1 := by omega
        rw [this, List.replicate_succ]
      rw [hrep]
      rw [List.set_append_right _ _ (by simp)]
      simp [List.map_append]
  · -- no growth: there is room after the sentinel
    simp only [if_neg hgrow]
    have hlt' : a.argc + 1 < a.capacity := by omega
    have hrestlen : 0 < rest.length := by
      have : a.argv.length = l.length + (1 + rest.length) := by
        simp [hshape]; omega
      omega
    obtain ⟨r0, rest', hrest⟩ : ∃ r0 rest', rest = r0 :: rest' := by
      cases rest with
      | nil => exact absurd hrestlen (by simp)
      | cons r0 rest' => exact ⟨r0, rest', rfl⟩
    subst hrest
    refine ⟨by simp [hargc], by simp [hlen], by simp [hargc]; omega,
      rest', ?_⟩
    rw [hshape, hargc]
    have hset1 : (l.map Slot.str ++ Slot.null :: r0 :: rest').set l.length
        (Slot.str s) = l.map Slot.str ++ Slot.str s :: r0 :: rest' := by
      rw [List.set_append_right _ _ (by simp)]
      simp
    rw [hset1]
    rw [List.set_append_right _ _ (by simp)]
    simp [List.map_append]

theorem argsShape_foldl (a : Args) (l : List String) (ss : List String)
    (h : ArgsShape a l) : ArgsShape (ss.foldl args_add a) (l ++ ss) := by
  induction ss generalizing a l with
  | nil => simpa using h
  | cons s ss ih =>
    have := ih (args_add a s) (l ++ [s]) (argsShape_add a l s h)
    simpa using this

theorem argsShape_run (cap : Nat) (hcap : 0 < cap) (ss : List String) :
    ArgsShape (args_run cap ss) ss := by
  have := argsShape_foldl (args_init cap) [] ss (argsShape_init cap hcap)
  simpa [args_run] using this

theorem argvUpToNull_shape (l : List String) (rest : List Slot) :
    argvUpToNull (l.map Slot.str ++ Slot.null :: rest) = l := by
  induction l with
  | nil => simp [argvUpToNull]
  | cons s l ih => simp [argvUpToNull, ih]

theorem argsShape_argv (a : Args) (l : List String) (h : ArgsShape a l) :
    argvUpToNull a.argv = l := by
  obtain ⟨-, -, -, rest, hshape⟩ := h
  rw [hshape]
  exact argvUpToNull_shape l rest

theorem argsShape_sentinel (a : Args) (l : List String) (h : ArgsShape a l) :
    a.argv.getD a.argc Slot.undef = Slot.null := by
  obtain ⟨hargc, -, -, rest, hshape⟩ := h
  rw [List.getD_eq_getElem?_getD, hshape, hargc]
  rw [List.getElem?_append_right (by simp)]
  simp

theorem argsShape_slot (a : Args) (l : List String) (h : ArgsShape a l)
    (i : Nat) (hi : i < a.argc) :
    a.argv.getD i Slot.undef = Slot.str (l.getD i "") := by
  obtain ⟨hargc, -, -, rest, hshape⟩ := h
  have hil : i < l.length := by omega
  rw [List.getD_eq_getElem?_getD, hshape]
  rw [List.getElem?_append_left (by simpa)]
  rw [List.getElem?_map]
  rw [List.getD_eq_getElem?_getD]
  cases hx : l[i]? with
  | none =>
    rw [List.getElem?_eq_none_iff] at hx
    omega
  | some x => simp [hx]

/-! ## Descriptor-table lemmas -/

theorem getD_setFd_self (t : FdTable) (fd : Nat) (e : Option FdEntry) :
    (setFd t fd e).getD fd none = e := by
  rw [List.getD_eq_getElem?_getD, setFd]
  rw [List.getElem?_set_self (by simp; omega)]
  rfl

theorem getD_setFd_ne (t : FdTable) (fd fd' : Nat) (e : Option FdEntry)
    (h : fd' ≠ fd) : (setFd t fd e).getD fd' none = t.getD fd' none := by
  rw [List.getD_eq_getElem?_getD, List.getD_eq_getElem?_getD, setFd]
  rw [List.getElem?_set_ne (fun he => h he.symm)]
  rcases Nat.lt_or_ge fd' t.length with h1 | h1
  · rw [List.getElem?_append_left h1]
  · rw [List.getElem?_append_right h1, List.getElem?_eq_none h1,
      List.getElem?_replicate]
    by_cases hc : fd' - t.length < fd + 1 - t.length <;> simp [hc]

theorem lowestFree_ge (t : FdTable) (ge : Nat) : ge ≤ lowestFree t ge := by
  unfold lowestFree
  cases hf : (List.range (ge + t.length + 1)).find? fun i =>
      decide (ge ≤ i) && (t.getD i none).isNone with
  | none => simp
  | some i =>
    have hp := List.find?_some hf
    simp only [Bool.and_eq_true, decide_eq_true_eq] at hp
    simpa using hp.1

theorem lowestFree_free (t : FdTable) (ge : Nat) :
    t.getD (lowestFree t ge) none = none := by
  unfold lowestFree
  cases hf : (List.range (ge + t.length + 1)).find? fun i =>
      decide (ge ≤ i) && (t.getD i none).isNone with
  | none =>
    simp only [Option.getD_none]
    rw [List.getD_eq_getElem?_getD, List.getElem?_eq_none (by omega)]
    rfl
  | some i =>
    have hp := List.find?_some hf
    simp only [Bool.and_eq_true, decide_eq_true_eq, Option.isNone_iff_eq_none]
      at hp
    simpa using hp.2

theorem sysWF_iff (s : Sys) :
    sysWF s = true ↔ ∀ fd, entryWF (lookupFd s fd) s.nextPipe = true := by
  rw [sysWF, List.all_eq_true]
  constructor
  · intro h fd
    rw [lookupFd, List.getD_eq_getElem?_getD]
    cases hx : s.table[fd]? with
    | none => rfl
    | some e => exact h e (List.getElem?_mem hx)
  · intro h e he
    obtain ⟨i, hi, hget⟩ := List.getElem_of_mem he
    have := h i
    rw [lookupFd, List.getD_eq_getElem?_getD, List.getElem?_eq_getElem hi,
      hget] at this
    exact this

theorem entryWF_mono (e : Option FdEntry) (n m : Nat) (hnm : n ≤ m)
    (h : entryWF e n = true) : entryWF e m = true := by
  cases e with
  | none => rfl
  | some e =>
    cases ho : e.obj with
    | readEnd p =>
      simp only [entryWF, objWF, ho, decide_eq_true_eq] at h ⊢
      omega
    | writeEnd p =>
      simp only [entryWF, objWF, ho, decide_eq_true_eq] at h ⊢
      omega
    | other p => simp [entryWF, objWF, ho]

theorem hasWriter_iff (s : Sys) (pid : Nat) :
    hasWriter s pid = true ↔
      ∃ fd e, lookupFd s fd = some e ∧ e.obj = KObj.writeEnd pid := by
  rw [hasWriter, List.any_eq_true]
  constructor
  · intro h
    obtain ⟨x, hx, hp⟩ := h
    cases x with
    | none => simp at hp
    | some e =>
      obtain ⟨i, hi, hget⟩ := List.getElem_of_mem hx
      refine ⟨i, e, ?_, ?_⟩
      · rw [lookupFd, List.getD_eq_getElem?_getD,
          List.getElem?_eq_getElem hi, hget]
        rfl
      · simpa using hp
  · intro h
    obtain ⟨fd, e, hl, ho⟩ := h
    rw [lookupFd, List.getD_eq_getElem?_getD] at hl
    cases hx : s.table[fd]? with
    | none => rw [hx] at hl; simp at hl
    | some x =>
      rw [hx] at hl
      simp only [Option.getD_some] at hl
      subst hl
      exact ⟨some e, List.getElem?_mem hx, by simp [ho]⟩

theorem alwaysEofAt_read (s : Sys) (fd : Nat) (h : alwaysEofAt s fd) :
    sys_read s fd = ReadResult.eof := by
  obtain ⟨pid, h1, h2⟩ := h
  simp [sys_read, h1, h2]

/-! ## System-call specification lemmas -/

theorem sys_pipe_spec (s : Sys) :
    (sys_pipe s).1.1 ≠ (sys_pipe s).1.2 ∧
    lookupFd s (sys_pipe s).1.1 = none ∧
    lookupFd s (sys_pipe s).1.2 = none ∧
    lookupFd (sys_pipe s).2 (sys_pipe s).1.1 =
      some ⟨KObj.readEnd s.nextPipe, false⟩ ∧
    lookupFd (sys_pipe s).2 (sys_pipe s).1.2 =
      some ⟨KObj.writeEnd s.nextPipe, false⟩ ∧
    (∀ i, i ≠ (sys_pipe s).1.1 → i ≠ (sys_pipe s).1.2 →
      lookupFd (sys_pipe s).2 i = lookupFd s i) ∧
    (sys_pipe s).2.nextPipe = s.nextPipe + 1 := by
  simp only [sys_pipe, lookupFd]
  have hrfree : s.table.getD (lowestFree s.table 0) none = none :=
    lowestFree_free s.table 0
  have hrt1 : (setFd s.table (lowestFree s.table 0)
      (some ⟨KObj.readEnd s.nextPipe, false⟩)).getD
        (lowestFree s.table 0) none =
      some ⟨KObj.readEnd s.nextPipe, false⟩ := getD_setFd_self _ _ _
  have hwfree : (setFd s.table (lowestFree s.table 0)
      (some ⟨KObj.readEnd s.nextPipe, false⟩)).getD
        (lowestFree (setFd s.table (lowestFree s.table 0)
          (some ⟨KObj.readEnd s.nextPipe, false⟩)) 0) none = none :=
    lowestFree_free _ 0
  have hne : lowestFree s.table 0 ≠
      lowestFree (setFd s.table (lowestFree s.table 0)
        (some ⟨KObj.readEnd s.nextPipe, false⟩)) 0 := by
    intro he
    rw [← he, hrt1] at hwfree
    exact Option.noConfusion hwfree
  refine ⟨hne, hrfree, ?_, ?_, getD_setFd_self _ _ _, ?_, trivial⟩
  · have := getD_setFd_ne s.table (lowestFree s.table 0)
      (lowestFree (setFd s.table (lowestFree s.table 0)
        (some ⟨KObj.readEnd s.nextPipe, false⟩)) 0)
      (some ⟨KObj.readEnd s.nextPipe, false⟩) (Ne.symm hne)
    rw [← this]
    exact hwfree
  · rw [getD_setFd_ne _ _ _ _ hne]
    exact hrt1
  · intro i h1 h2
    rw [getD_setFd_ne _ _ _ _ h2, getD_setFd_ne _ _ _ _ h1]

theorem lookupFd_close_self (s : Sys) (fd : Nat) :
    lookupFd (sys_close s fd) fd = none := by
  simp only [sys_close, lookupFd]
  exact getD_setFd_self _ _ _

theorem lookupFd_close_ne (s : Sys) (fd i : Nat) (h : i ≠ fd) :
    lookupFd (sys_close s fd) i = lookupFd s i := by
  simp only [sys_close, lookupFd]
  exact getD_setFd_ne _ _ _ _ h

theorem nextPipe_close (s : Sys) (fd : Nat) :
    (sys_close s fd).nextPipe = s.nextPipe := rfl

theorem sys_dup2_eq (s : Sys) (o n : Nat) (e : FdEntry)
    (h : lookupFd s o = some e) (hne : o ≠ n) :
    sys_dup2 s o n =
      some { s with table := setFd s.table n (some ⟨e.obj, false⟩) } := by
  simp [sys_dup2, h, hne]

theorem clear_cloexec_eq (s : Sys) (fd : Nat) (e : FdEntry)
    (h : lookupFd s fd = some e) :
    clear_cloexec s fd =
      some { s with table := setFd s.table fd (some ⟨e.obj, false⟩) } := by
  simp [clear_cloexec, h]

theorem xdup_ge_spec (s : Sys) (fd ge : Nat) (e : FdEntry)
    (h : lookupFd s fd = some e) :
    ∃ n s', xdup_ge s fd ge = some (n, s') ∧ ge ≤ n ∧
      lookupFd s n = none ∧
      lookupFd s' n = some ⟨e.obj, true⟩ ∧
      (∀ i, i ≠ n → lookupFd s' i = lookupFd s i) ∧
      s'.nextPipe = s.nextPipe := by
  refine ⟨lowestFree s.table ge,
    ⟨setFd s.table (lowestFree s.table ge) (some ⟨e.obj, true⟩), s.nextPipe⟩,
    by simp [xdup_ge, h], lowestFree_ge _ _,
    lowestFree_free s.table ge, ?_, ?_, rfl⟩
  · show (setFd s.table (lowestFree s.table ge)
      (some ⟨e.obj, true⟩)).getD (lowestFree s.table ge) none = _
    exact getD_setFd_self _ _ _
  · intro i hi
    show (setFd s.table (lowestFree s.table ge)
      (some ⟨e.obj, true⟩)).getD i none = s.table.getD i none
    exact getD_setFd_ne _ _ _ _ hi

/-! ## Well-formedness preservation -/

theorem sysWF_setFd (t : FdTable) (np : Nat) (fd : Nat) (e : Option FdEntry)
    (m : Nat) (hs : sysWF ⟨t, np⟩ = true) (hnp : np ≤ m)
    (he : entryWF e m = true) : sysWF ⟨setFd t fd e, m⟩ = true := by
  rw [sysWF_iff] at hs ⊢
  intro i
  show entryWF ((setFd t fd e).getD i none) m = true
  by_cases hi : i = fd
  · subst hi
    rw [getD_setFd_self]
    exact he
  · rw [getD_setFd_ne _ _ _ _ hi]
    exact entryWF_mono _ _ _ hnp (hs i)

theorem sysWF_pipe (s : Sys) (hs : sysWF s = true) :
    sysWF (sys_pipe s).2 = true := by
  simp only [sys_pipe]
  refine sysWF_setFd _ _ _ _ _ ?_ (Nat.le_refl _) (by simp [entryWF, objWF])
  exact sysWF_setFd _ _ _ _ _ hs (Nat.le_succ _) (by simp [entryWF, objWF])

theorem sysWF_close (s : Sys) (fd : Nat) (hs : sysWF s = true) :
    sysWF (sys_close s fd) = true := by
  simp only [sys_close]
  exact sysWF_setFd _ _ _ _ _ hs (Nat.le_refl _) rfl

theorem sysWF_obj_of_lookup (s : Sys) (fd : Nat) (e : FdEntry)
    (hs : sysWF s = true) (h : lookupFd s fd = some e) :
    objWF e.obj s.nextPipe = true := by
  have := (sysWF_iff s).mp hs fd
  rw [h] at this
  exact this

theorem sysWF_dup2 (s s' : Sys) (o n : Nat)
    (h : sys_dup2 s o n = some s') (hs : sysWF s = true) :
    sysWF s' = true := by
  cases hl : lookupFd s o with
  | none =>
    simp only [sys_dup2, hl] at h
    exact Option.noConfusion h
  | some e =>
    simp only [sys_dup2, hl] at h
    by_cases heq : o = n
    · rw [if_pos heq] at h
      cases h
      exact hs
    · rw [if_neg heq] at h
      cases h
      exact sysWF_setFd _ _ _ _ _ hs (Nat.le_refl _)
        (sysWF_obj_of_lookup s o e hs hl)

theorem sysWF_clear (s s' : Sys) (fd : Nat)
    (h : clear_cloexec s fd = some s') (hs : sysWF s = true) :
    sysWF s' = true := by
  unfold clear_cloexec at h
  cases hl : lookupFd s fd with
  | none => rw [hl] at h; exact Option.noConfusion h
  | some e =>
    rw [hl] at h
    cases h
    exact sysWF_setFd _ _ _ _ _ hs (Nat.le_refl _)
      (sysWF_obj_of_lookup s fd e hs hl)

theorem sysWF_xdup (s s' : Sys) (fd ge n : Nat)
    (h : xdup_ge s fd ge = some (n, s')) (hs : sysWF s = true) :
    sysWF s' = true := by
  unfold xdup_ge at h
  cases hl : lookupFd s fd with
  | none => rw [hl] at h; exact Option.noConfusion h
  | some e =>
    rw [hl] at h
    simp only [Option.some.injEq, Prod.mk.injEq] at h
    rw [← h.2]
    exact sysWF_setFd _ _ _ _ _ hs (Nat.le_refl _)
      (sysWF_obj_of_lookup s fd e hs hl)

theorem sysWF_closed_reader (s s' : Sys) (fd : Nat)
    (h : closed_reader s fd = some s') (hs : sysWF s = true) :
    sysWF s' = true := by
  unfold closed_reader at h
  have hA : sysWF (sys_pipe s).2 = true := sysWF_pipe s hs
  have h1 : sysWF (sys_close (sys_pipe s).2 (sys_pipe s).1.2) = true :=
    sysWF_close _ _ hA
  by_cases hfd : fd ≠ (sys_pipe s).1.1
  · rw [if_pos hfd] at h
    cases hd : sys_dup2 (sys_close (sys_pipe s).2 (sys_pipe s).1.2)
        (sys_pipe s).1.1 fd with
    | none => rw [hd] at h; exact Option.noConfusion h
    | some s2 =>
      rw [hd] at h
      cases h
      exact sysWF_close _ _ (sysWF_dup2 _ _ _ _ hd h1)
  · rw [if_neg hfd] at h
    cases h
    exact h1

theorem closed_reader_spec (s : Sys) (fd : Nat) :
    ∃ s', closed_reader s fd = some s' ∧
      lookupFd s' fd = some ⟨KObj.readEnd s.nextPipe, false⟩ ∧
      (∀ i, i ≠ fd → lookupFd s' i = lookupFd s i) ∧
      s'.nextPipe = s.nextPipe + 1 := by
  obtain ⟨hrw, hrfree, hwfree, hr, hw, hframe, hnp⟩ := sys_pipe_spec s
  by_cases hfd : fd = (sys_pipe s).1.1
  · -- fd is already the read end of the fresh pipe
    refine ⟨sys_close (sys_pipe s).2 (sys_pipe s).1.2, ?_, ?_, ?_, ?_⟩
    · simp only [closed_reader]
      rw [if_neg (by simp [hfd])]
    · rw [hfd, lookupFd_close_ne _ _ _ hrw, hr]
    · intro i hi
      by_cases hiw : i = (sys_pipe s).1.2
      · subst hiw
        rw [lookupFd_close_self, hwfree]
      · rw [lookupFd_close_ne _ _ _ hiw]
        exact hframe i (by rw [← hfd]; exact hi) hiw
    · rw [nextPipe_close, hnp]
  · -- dup2 the read end onto fd, close the original read end
    have hl1 : lookupFd (sys_close (sys_pipe s).2 (sys_pipe s).1.2)
        (sys_pipe s).1.1 = some ⟨KObj.readEnd s.nextPipe, false⟩ := by
      rw [lookupFd_close_ne _ _ _ hrw]
      exact hr
    have hdup := sys_dup2_eq (sys_close (sys_pipe s).2 (sys_pipe s).1.2)
      (sys_pipe s).1.1 fd ⟨KObj.readEnd s.nextPipe, false⟩ hl1 (Ne.symm hfd)
    refine ⟨sys_close ⟨setFd (sys_close (sys_pipe s).2
        (sys_pipe s).1.2).table fd (some ⟨KObj.readEnd s.nextPipe, false⟩),
        (sys_close (sys_pipe s).2 (sys_pipe s).1.2).nextPipe⟩
        (sys_pipe s).1.1, ?_, ?_, ?_, ?_⟩
    · simp only [closed_reader]
      rw [if_pos hfd, hdup]
    · rw [lookupFd_close_ne _ _ _ hfd]
      show (setFd _ fd _).getD fd none = _
      exact getD_setFd_self _ _ _
    · intro i hi
      by_cases hir : i = (sys_pipe s).1.1
      · subst hir
        rw [lookupFd_close_self, hrfree]
      · rw [lookupFd_close_ne _ _ _ hir]
        have hstep : (setFd (sys_close (sys_pipe s).2
            (sys_pipe s).1.2).table fd
            (some ⟨KObj.readEnd s.nextPipe, false⟩)).getD i none =
            lookupFd (sys_close (sys_pipe s).2 (sys_pipe s).1.2) i :=
          getD_setFd_ne _ _ _ _ hi
        show (setFd _ fd _).getD i none = _
        rw [hstep]
        by_cases hiw : i = (sys_pipe s).1.2
        · subst hiw
          rw [lookupFd_close_self, hwfree]
        · rw [lookupFd_close_ne _ _ _ hiw]
          exact hframe i hir hiw
    · show (sys_close (sys_pipe s).2 (sys_pipe s).1.2).nextPipe =
        s.nextPipe + 1
      rw [nextPipe_close, hnp]

theorem closed_reader_eof (s : Sys) (fd : Nat) (hwf : sysWF s = true) :
    ∃ s', closed_reader s fd = some s' ∧ alwaysEofAt s' fd ∧
      (∀ i, i ≠ fd → lookupFd s' i = lookupFd s i) ∧
      s'.nextPipe = s.nextPipe + 1 ∧ sysWF s' = true := by
  obtain ⟨s', heq, hfd, hframe, hnp⟩ := closed_reader_spec s fd
  have hwf' : sysWF s' = true := sysWF_closed_reader s s' fd heq hwf
  refine ⟨s', heq, ⟨s.nextPipe, hfd, ?_⟩, hframe, hnp, hwf'⟩
  cases hW : hasWriter s' s.nextPipe with
  | false => rfl
  | true =>
    obtain ⟨j, e, hj, ho⟩ := (hasWriter_iff _ _).mp hW
    by_cases hjf : j = fd
    · subst hjf
      rw [hfd] at hj
      cases hj
      exact KObj.noConfusion ho
    · rw [hframe j hjf] at hj
      have hwfj := (sysWF_iff s).mp hwf j
      rw [hj] at hwfj
      simp only [entryWF, ho, objWF, decide_eq_true_eq] at hwfj
      omega

theorem sys_dup2_spec2 (s : Sys) (o n : Nat) (e : FdEntry)
    (h : lookupFd s o = some e) (hne : o ≠ n) (hwf : sysWF s = true) :
    ∃ s', sys_dup2 s o n = some s' ∧
      lookupFd s' n = some ⟨e.obj, false⟩ ∧
      (∀ i, i ≠ n → lookupFd s' i = lookupFd s i) ∧
      s'.nextPipe = s.nextPipe ∧ sysWF s' = true := by
  refine ⟨⟨setFd s.table n (some ⟨e.obj, false⟩), s.nextPipe⟩,
    by rw [sys_dup2_eq s o n e h hne], ?_, ?_, rfl, ?_⟩
  · show (setFd s.table n _).getD n none = _
    exact getD_setFd_self _ _ _
  · intro i hi
    show (setFd s.table n _).getD i none = s.table.getD i none
    exact getD_setFd_ne _ _ _ _ hi
  · exact sysWF_dup2 s _ o n (by rw [sys_dup2_eq s o n e h hne]) hwf

theorem clear_cloexec_spec2 (s : Sys) (fd : Nat) (e : FdEntry)
    (h : lookupFd s fd = some e) (hwf : sysWF s = true) :
    ∃ s', clear_cloexec s fd = some s' ∧
      lookupFd s' fd = some ⟨e.obj, false⟩ ∧
      (∀ i, i ≠ fd → lookupFd s' i = lookupFd s i) ∧
      s'.nextPipe = s.nextPipe ∧ sysWF s' = true := by
  refine ⟨⟨setFd s.table fd (some ⟨e.obj, false⟩), s.nextPipe⟩,
    by rw [clear_cloexec_eq s fd e h], ?_, ?_, rfl, ?_⟩
  · show (setFd s.table fd _).getD fd none = _
    exact getD_setFd_self _ _ _
  · intro i hi
    show (setFd s.table fd _).getD i none = s.table.getD i none
    exact getD_setFd_ne _ _ _ _ hi
  · exact sysWF_clear s _ fd (by rw [clear_cloexec_eq s fd e h]) hwf

theorem producer_spec (s0 : Sys) (shell cmd : String) (pout : Nat)
    (e : FdEntry) (hwf : sysWF s0 = true)
    (hpout : lookupFd s0 pout = some e) :
    ∃ ec, producer s0 shell cmd pout = some ec ∧
      ec.prog = shell ∧ ec.argv = [shell, "-c", cmd] ∧ ec.viaPath = false ∧
      lookupFd ec.sys 1 = some ⟨e.obj, false⟩ ∧
      alwaysEofAt ec.sys 0 := by
  have hstep1 : ∃ s1 c, sys_dup2 s0 pout 1 = some s1 ∧
      lookupFd s1 1 = some ⟨e.obj, c⟩ ∧ sysWF s1 = true := by
    by_cases hp1 : pout = 1
    · subst hp1
      refine ⟨s0, e.cloexec, by simp [sys_dup2, hpout], ?_, hwf⟩
      simpa using hpout
    · obtain ⟨s1, heq, hl, -, -, hwf1⟩ :=
        sys_dup2_spec2 s0 pout 1 e hpout hp1 hwf
      exact ⟨s1, false, heq, hl, hwf1⟩
  obtain ⟨s1, c, heq1, hl1, hwf1⟩ := hstep1
  obtain ⟨s2, heq2, hl2, hframe2, -, hwf2⟩ :=
    clear_cloexec_spec2 s1 1 ⟨e.obj, c⟩ hl1 hwf1
  obtain ⟨s3, heq3, heof3, hframe3, -, -⟩ := closed_reader_eof s2 0 hwf2
  refine ⟨⟨shell, [shell, "-c", cmd], s3, false⟩, ?_, rfl, rfl, rfl, ?_, heof3⟩
  · simp only [producer, Option.bind_eq_bind, heq1, Option.some_bind, heq2,
      heq3]
  · rw [hframe3 1 (by decide)]
    exact hl2

theorem consumer_spec (s0 : Sys) (a : Args) (base : List String)
    (cmda cmdb : String) (pa0 pb0 idA idB : Nat)
    (hwf : sysWF s0 = true) (ha : ArgsShape a base)
    (hpa : lookupFd s0 pa0 = some ⟨KObj.readEnd idA, true⟩)
    (hpb : lookupFd s0 pb0 = some ⟨KObj.readEnd idB, true⟩)
    (hpa5 : 5 ≤ pa0) (hpb5 : 5 ≤ pb0) :
    ∃ ec, consumer s0 a cmda cmdb pa0 pb0 = some ec ∧
      ec.prog = DIFF_CMD ∧ ec.viaPath = true ∧
      lookupFd ec.sys 3 = some ⟨KObj.readEnd idA, false⟩ ∧
      lookupFd ec.sys 4 = some ⟨KObj.readEnd idB, false⟩ ∧
      alwaysEofAt ec.sys 0 ∧
      ec.argv = base ++ ["--label", cmda, "/proc/self/fd/3",
        "--label", cmdb, "/proc/self/fd/4"] := by
  obtain ⟨s1, heq1, hl13, hframe1, -, hwf1⟩ :=
    sys_dup2_spec2 s0 pa0 3 ⟨KObj.readEnd idA, true⟩ hpa (by omega) hwf
  have hl1pb : lookupFd s1 pb0 = some ⟨KObj.readEnd idB, true⟩ := by
    rw [hframe1 pb0 (by omega)]
    exact hpb
  obtain ⟨s2, heq2, hl24, hframe2, -, hwf2⟩ :=
    sys_dup2_spec2 s1 pb0 4 ⟨KObj.readEnd idB, true⟩ hl1pb (by omega) hwf1
  have hl23 : lookupFd s2 3 = some ⟨KObj.readEnd idA, false⟩ := by
    rw [hframe2 3 (by decide)]
    exact hl13
  obtain ⟨s3, heq3, hl33, hframe3, -, hwf3⟩ :=
    clear_cloexec_spec2 s2 3 ⟨KObj.readEnd idA, false⟩ hl23 hwf2
  have hl34 : lookupFd s3 4 = some ⟨KObj.readEnd idB, false⟩ := by
    rw [hframe3 4 (by decide)]
    exact hl24
  obtain ⟨s4, heq4, hl44, hframe4, -, hwf4⟩ :=
    clear_cloexec_spec2 s3 4 ⟨KObj.readEnd idB, false⟩ hl34 hwf3
  have hl43 : lookupFd s4 3 = some ⟨KObj.readEnd idA, false⟩ := by
    rw [hframe4 3 (by decide)]
    exact hl33
  obtain ⟨s5, heq5, heof5, hframe5, -, -⟩ := closed_reader_eof s4 0 hwf4
  have hl53 : lookupFd s5 3 = some ⟨KObj.readEnd idA, false⟩ := by
    rw [hframe5 3 (by decide)]
    exact hl43
  have hl54 : lookupFd s5 4 = some ⟨KObj.readEnd idB, false⟩ := by
    rw [hframe5 4 (by decide)]
    exact hl44
  have hsh : ArgsShape (args_add (args_add (args_add (args_add (args_add
      (args_add a "--label") cmda) "/proc/self/fd/3") "--label") cmdb)
      "/proc/self/fd/4")
      (base ++ ["--label", cmda, "/proc/self/fd/3", "--label", cmdb,
        "/proc/self/fd/4"]) := by
    have h1 := argsShape_add _ _ "--label" ha
    have h2 := argsShape_add _ _ cmda h1
    have h3 := argsShape_add _ _ "/proc/self/fd/3" h2
    have h4 := argsShape_add _ _ "--label" h3
    have h5 := argsShape_add _ _ cmdb h4
    have h6 := argsShape_add _ _ "/proc/self/fd/4" h5
    simpa [List.append_assoc] using h6
  have hargv := argsShape_argv _ _ hsh
  refine ⟨⟨DIFF_CMD, base ++ ["--label", cmda, "/proc/self/fd/3",
      "--label", cmdb, "/proc/self/fd/4"], s5, true⟩, ?_, rfl, rfl,
    hl53, hl54, heof5, rfl⟩
  simp only [consumer, Option.bind_eq_bind, heq1, Option.getD_some, heq2,
    heq3, Option.some_bind, heq4, heq5, hargv]

theorem ne_of_lookup (s : Sys) (i j : Nat) (e : FdEntry)
    (hi : lookupFd s i = some e) (hj : lookupFd s j = none) : i ≠ j := by
  intro he
  rw [he, hj] at hi
  exact Option.noConfusion hi

theorem sys_pipe_spec2 (s : Sys) (r w : Nat) (s' : Sys)
    (h : sys_pipe s = ((r, w), s')) :
    r ≠ w ∧ lookupFd s r = none ∧ lookupFd s w = none ∧
    lookupFd s' r = some ⟨KObj.readEnd s.nextPipe, false⟩ ∧
    lookupFd s' w = some ⟨KObj.writeEnd s.nextPipe, false⟩ ∧
    (∀ i, i ≠ r → i ≠ w → lookupFd s' i = lookupFd s i) ∧
    s'.nextPipe = s.nextPipe + 1 := by
  have hspec := sys_pipe_spec s
  rw [h] at hspec
  exact hspec

theorem sysWF_pipe2 (s : Sys) (r w : Nat) (s' : Sys)
    (h : sys_pipe s = ((r, w), s')) (hs : sysWF s = true) :
    sysWF s' = true := by
  have := sysWF_pipe s hs
  rw [h] at this
  exact this

theorem setupPipes_spec (s0 : Sys) (hwf : sysWF s0 = true) :
    ∃ pa0 pa1 pb0 pb1 sF,
      setupPipes s0 = some ((pa0, pa1), (pb0, pb1), sF) ∧
      DIFF_MAXFD + 1 ≤ pa0 ∧ DIFF_MAXFD + 1 ≤ pa1 ∧
      DIFF_MAXFD + 1 ≤ pb0 ∧ DIFF_MAXFD + 1 ≤ pb1 ∧
      lookupFd sF pa0 = some ⟨KObj.readEnd s0.nextPipe, true⟩ ∧
      lookupFd sF pa1 = some ⟨KObj.writeEnd s0.nextPipe, true⟩ ∧
      lookupFd sF pb0 = some ⟨KObj.readEnd (s0.nextPipe + 1), true⟩ ∧
      lookupFd sF pb1 = some ⟨KObj.writeEnd (s0.nextPipe + 1), true⟩ ∧
      (∀ i, i ≠ pa0 → i ≠ pa1 → i ≠ pb0 → i ≠ pb1 →
        lookupFd sF i = lookupFd s0 i ∨ lookupFd sF i = none) ∧
      sF.nextPipe = s0.nextPipe + 2 ∧ sysWF sF = true := by
  -- stage A: pipe A, re-home both ends, close the originals
  rcases hP1 : sys_pipe s0 with ⟨⟨r1, w1⟩, sA⟩
  obtain ⟨hrw1, hr1f, hw1f, hAr, hAw, hframeA, hnpA⟩ :=
    sys_pipe_spec2 s0 r1 w1 sA hP1
  have hwfA : sysWF sA = true := sysWF_pipe2 s0 r1 w1 sA hP1 hwf
  obtain ⟨pa0, s2, hx1, hge1, hfree1, hl2pa0, hfr1, hnp1⟩ :=
    xdup_ge_spec sA r1 (DIFF_MAXFD + 1) ⟨KObj.readEnd s0.nextPipe, false⟩ hAr
  have hw1pa0 : w1 ≠ pa0 := ne_of_lookup sA w1 pa0 _ hAw hfree1
  have hr1pa0 : r1 ≠ pa0 := ne_of_lookup sA r1 pa0 _ hAr hfree1
  have hl2w1 : lookupFd s2 w1 = some ⟨KObj.writeEnd s0.nextPipe, false⟩ := by
    rw [hfr1 w1 hw1pa0]
    exact hAw
  have hwf2 : sysWF s2 = true := sysWF_xdup sA s2 r1 _ pa0 hx1 hwfA
  obtain ⟨pa1, s3, hx2, hge2, hfree2, hl3pa1, hfr2, hnp2⟩ :=
    xdup_ge_spec s2 w1 (DIFF_MAXFD + 1) ⟨KObj.writeEnd s0.nextPipe, false⟩
      hl2w1
  have hwf3 : sysWF s3 = true := sysWF_xdup s2 s3 w1 _ pa1 hx2 hwf2
  have hpa0pa1 : pa0 ≠ pa1 := ne_of_lookup s2 pa0 pa1 _ hl2pa0 hfree2
  have hl2r1 : lookupFd s2 r1 = some ⟨KObj.readEnd s0.nextPipe, false⟩ := by
    rw [hfr1 r1 hr1pa0]
    exact hAr
  have hr1pa1 : r1 ≠ pa1 := ne_of_lookup s2 r1 pa1 _ hl2r1 hfree2
  have hw1pa1 : w1 ≠ pa1 := ne_of_lookup s2 w1 pa1 _ hl2w1 hfree2
  obtain ⟨s4, hs4⟩ : ∃ s4, sys_close (sys_close s3 r1) w1 = s4 := ⟨_, rfl⟩
  have hl4pa0 : lookupFd s4 pa0 = some ⟨KObj.readEnd s0.nextPipe, true⟩ := by
    rw [← hs4, lookupFd_close_ne _ _ _ (Ne.symm hw1pa0),
      lookupFd_close_ne _ _ _ (Ne.symm hr1pa0), hfr2 pa0 hpa0pa1]
    exact hl2pa0
  have hl4pa1 : lookupFd s4 pa1 = some ⟨KObj.writeEnd s0.nextPipe, true⟩ := by
    rw [← hs4, lookupFd_close_ne _ _ _ (Ne.symm hw1pa1),
      lookupFd_close_ne _ _ _ (Ne.symm hr1pa1)]
    exact hl3pa1
  have hfr4 : ∀ i, i ≠ pa0 → i ≠ pa1 → i ≠ r1 → i ≠ w1 →
      lookupFd s4 i = lookupFd s0 i := by
    intro i h0 h1 h2 h3
    rw [← hs4, lookupFd_close_ne _ _ _ h3, lookupFd_close_ne _ _ _ h2,
      hfr2 i h1, hfr1 i h0]
    exact hframeA i h2 h3
  have hl4r1 : lookupFd s4 r1 = none := by
    rw [← hs4, lookupFd_close_ne _ _ _ hrw1]
    exact lookupFd_close_self _ _
  have hl4w1 : lookupFd s4 w1 = none := by
    rw [← hs4]
    exact lookupFd_close_self _ _
  have hwf4 : sysWF s4 = true := by
    rw [← hs4]
    exact sysWF_close _ _ (sysWF_close _ _ hwf3)
  have hnp4 : s4.nextPipe = s0.nextPipe + 1 := by
    rw [← hs4, nextPipe_close, nextPipe_close, hnp2, hnp1, hnpA]
  -- stage B: pipe B, re-home both ends, close the originals
  rcases hP2 : sys_pipe s4 with ⟨⟨r2, w2⟩, sB⟩
  obtain ⟨hrw2, hr2f, hw2f, hBr, hBw, hframeB, hnpB⟩ :=
    sys_pipe_spec2 s4 r2 w2 sB hP2
  rw [hnp4] at hBr hBw hnpB
  have hwfB : sysWF sB = true := sysWF_pipe2 s4 r2 w2 sB hP2 hwf4
  obtain ⟨pb0, s6, hx3, hge3, hfree3, hl6pb0, hfr3, hnp3⟩ :=
    xdup_ge_spec sB r2 (DIFF_MAXFD + 1)
      ⟨KObj.readEnd (s0.nextPipe + 1), false⟩ hBr
  have hw2pb0 : w2 ≠ pb0 := ne_of_lookup sB w2 pb0 _ hBw hfree3
  have hr2pb0 : r2 ≠ pb0 := ne_of_lookup sB r2 pb0 _ hBr hfree3
  have hl6w2 : lookupFd s6 w2 =
      some ⟨KObj.writeEnd (s0.nextPipe + 1), false⟩ := by
    rw [hfr3 w2 hw2pb0]
    exact hBw
  have hwf6 : sysWF s6 = true := sysWF_xdup sB s6 r2 _ pb0 hx3 hwfB
  obtain ⟨pb1, s7, hx4, hge4, hfree4, hl7pb1, hfr4b, hnp4b⟩ :=
    xdup_ge_spec s6 w2 (DIFF_MAXFD + 1)
      ⟨KObj.writeEnd (s0.nextPipe + 1), false⟩ hl6w2
  have hwf7 : sysWF s7 = true := sysWF_xdup s6 s7 w2 _ pb1 hx4 hwf6
  have hpb0pb1 : pb0 ≠ pb1 := ne_of_lookup s6 pb0 pb1 _ hl6pb0 hfree4
  have hl6r2 : lookupFd s6 r2 =
      some ⟨KObj.readEnd (s0.nextPipe + 1), false⟩ := by
    rw [hfr3 r2 hr2pb0]
    exact hBr
  have hr2pb1 : r2 ≠ pb1 := ne_of_lookup s6 r2 pb1 _ hl6r2 hfree4
  have hw2pb1 : w2 ≠ pb1 := ne_of_lookup s6 w2 pb1 _ hl6w2 hfree4
  -- survival of the pipe-A duplicates through stage B
  have hpa0r2 : pa0 ≠ r2 := ne_of_lookup s4 pa0 r2 _ hl4pa0 hr2f
  have hpa0w2 : pa0 ≠ w2 := ne_of_lookup s4 pa0 w2 _ hl4pa0 hw2f
  have hpa1r2 : pa1 ≠ r2 := ne_of_lookup s4 pa1 r2 _ hl4pa1 hr2f
  have hpa1w2 : pa1 ≠ w2 := ne_of_lookup s4 pa1 w2 _ hl4pa1 hw2f
  have hlBpa0 : lookupFd sB pa0 = some ⟨KObj.readEnd s0.nextPipe, true⟩ := by
    rw [hframeB pa0 hpa0r2 hpa0w2]
    exact hl4pa0
  have hlBpa1 : lookupFd sB pa1 = some ⟨KObj.writeEnd s0.nextPipe, true⟩ := by
    rw [hframeB pa1 hpa1r2 hpa1w2]
    exact hl4pa1
  have hpa0pb0 : pa0 ≠ pb0 := ne_of_lookup sB pa0 pb0 _ hlBpa0 hfree3
  have hpa1pb0 : pa1 ≠ pb0 := ne_of_lookup sB pa1 pb0 _ hlBpa1 hfree3
  have hl6pa0 : lookupFd s6 pa0 = some ⟨KObj.readEnd s0.nextPipe, true⟩ := by
    rw [hfr3 pa0 hpa0pb0]
    exact hlBpa0
  have hl6pa1 : lookupFd s6 pa1 = some ⟨KObj.writeEnd s0.nextPipe, true⟩ := by
    rw [hfr3 pa1 hpa1pb0]
    exact hlBpa1
  have hpa0pb1 : pa0 ≠ pb1 := ne_of_lookup s6 pa0 pb1 _ hl6pa0 hfree4
  have hpa1pb1 : pa1 ≠ pb1 := ne_of_lookup s6 pa1 pb1 _ hl6pa1 hfree4
  obtain ⟨s8, hs8⟩ : ∃ s8, sys_close (sys_close s7 r2) w2 = s8 := ⟨_, rfl⟩
  refine ⟨pa0, pa1, pb0, pb1, s8, ?_, hge1, hge2, hge3, hge4, ?_, ?_, ?_, ?_,
    ?_, ?_, ?_⟩
  · -- the computation of setupPipes
    simp only [setupPipes, Option.bind_eq_bind, hP1, hx1, Option.some_bind,
      hx2, hs4, hP2, hx3, hx4, hs8]
  · rw [← hs8, lookupFd_close_ne _ _ _ hpa0w2,
      lookupFd_close_ne _ _ _ hpa0r2, hfr4b pa0 hpa0pb1]
    exact hl6pa0
  · rw [← hs8, lookupFd_close_ne _ _ _ hpa1w2,
      lookupFd_close_ne _ _ _ hpa1r2, hfr4b pa1 hpa1pb1]
    exact hl6pa1
  · rw [← hs8, lookupFd_close_ne _ _ _ (Ne.symm hw2pb0),
      lookupFd_close_ne _ _ _ (Ne.symm hr2pb0), hfr4b pb0 hpb0pb1]
    exact hl6pb0
  · rw [← hs8, lookupFd_close_ne _ _ _ (Ne.symm hw2pb1),
      lookupFd_close_ne _ _ _ (Ne.symm hr2pb1)]
    exact hl7pb1
  · -- frame: everything else is untouched or closed
    intro i h0 h1 h2 h3
    by_cases hiw2 : i = w2
    · right
      rw [← hs8, hiw2]
      exact lookupFd_close_self _ _
    · by_cases hir2 : i = r2
      · right
        rw [← hs8, lookupFd_close_ne _ _ _ hiw2, hir2]
        exact lookupFd_close_self _ _
      · have hstep : lookupFd s8 i = lookupFd s4 i := by
          rw [← hs8, lookupFd_close_ne _ _ _ hiw2,
            lookupFd_close_ne _ _ _ hir2, hfr4b i h3, hfr3 i h2]
          exact hframeB i hir2 hiw2
        by_cases hiw1 : i = w1
        · right
          rw [hstep, hiw1]
          exact hl4w1
        · by_cases hir1 : i = r1
          · right
            rw [hstep, hir1]
            exact hl4r1
          · left
            rw [hstep]
            exact hfr4 i h0 h1 hir1 hiw1
  · rw [← hs8, nextPipe_close, nextPipe_close, hnp4b, hnp3, hnpB]
  · rw [← hs8]
    exact sysWF_close _ _ (sysWF_close _ _ hwf7)

theorem run_main_spec (s0 : Sys) (env : Option String) (argv : List String)
    (st : Nat) (hwf : sysWF s0 = true) (hargc : 3 ≤ argv.length) :
    ∃ r, run_main s0 env argv st = Outcome.ok r ∧
      r.cmda = argv.getD (argv.length - 2) "" ∧
      r.cmdb = argv.getD (argv.length - 1) "" ∧
      r.shell = env.getD DEFAULT_SHELL ∧
      DIFF_MAXFD < r.pa.1 ∧ DIFF_MAXFD < r.pa.2 ∧
      DIFF_MAXFD < r.pb.1 ∧ DIFF_MAXFD < r.pb.2 ∧
      lookupFd r.forkSys r.pa.1 = some ⟨KObj.readEnd s0.nextPipe, true⟩ ∧
      lookupFd r.forkSys r.pa.2 = some ⟨KObj.writeEnd s0.nextPipe, true⟩ ∧
      lookupFd r.forkSys r.pb.1 =
        some ⟨KObj.readEnd (s0.nextPipe + 1), true⟩ ∧
      lookupFd r.forkSys r.pb.2 =
        some ⟨KObj.writeEnd (s0.nextPipe + 1), true⟩ ∧
      (∀ i e, lookupFd r.forkSys i = some e →
        (e.obj = KObj.readEnd s0.nextPipe ∨
         e.obj = KObj.writeEnd s0.nextPipe ∨
         e.obj = KObj.readEnd (s0.nextPipe + 1) ∨
         e.obj = KObj.writeEnd (s0.nextPipe + 1)) →
        i = r.pa.1 ∨ i = r.pa.2 ∨ i = r.pb.1 ∨ i = r.pb.2) ∧
      (∃ ec, r.prodA = some ec ∧ ec.prog = r.shell ∧
        ec.argv = [r.shell, "-c", r.cmda] ∧ ec.viaPath = false ∧
        lookupFd ec.sys 1 = some ⟨KObj.writeEnd s0.nextPipe, false⟩ ∧
        alwaysEofAt ec.sys 0) ∧
      (∃ ec, r.prodB = some ec ∧ ec.prog = r.shell ∧
        ec.argv = [r.shell, "-c", r.cmdb] ∧ ec.viaPath = false ∧
        lookupFd ec.sys 1 = some ⟨KObj.writeEnd (s0.nextPipe + 1), false⟩ ∧
        alwaysEofAt ec.sys 0) ∧
      (∃ ec, r.cons = some ec ∧ ec.prog = DIFF_CMD ∧ ec.viaPath = true ∧
        lookupFd ec.sys 3 = some ⟨KObj.readEnd s0.nextPipe, false⟩ ∧
        lookupFd ec.sys 4 = some ⟨KObj.readEnd (s0.nextPipe + 1), false⟩ ∧
        alwaysEofAt ec.sys 0 ∧
        ec.argv = DIFF_CMD :: flagsOf argv ++
          ["--label", r.cmda, "/proc/self/fd/3",
           "--label", r.cmdb, "/proc/self/fd/4"]) ∧
      r.waitStatus = st ∧ r.exitCode = 0 := by
  obtain ⟨pa0, pa1, pb0, pb1, sF, hsp, h5a, h5b, h5c, h5d, hFpa0, hFpa1,
    hFpb0, hFpb1, hFframe, hFnp, hFwf⟩ := setupPipes_spec s0 hwf
  have h5a' : 5 ≤ pa0 := by unfold DIFF_MAXFD at h5a; omega
  have h5c' : 5 ≤ pb0 := by unfold DIFF_MAXFD at h5c; omega
  have hbase0 : ArgsShape (args_add (args_init 2) DIFF_CMD) [DIFF_CMD] := by
    have := argsShape_add (args_init 2) [] DIFF_CMD
      (argsShape_init 2 (by decide))
    simpa using this
  have hbase : ArgsShape
      (if argv.length = 3 then args_add (args_add (args_init 2) DIFF_CMD) "-u"
       else ((argv.drop 1).take (argv.length - 3)).foldl args_add
         (args_add (args_init 2) DIFF_CMD))
      (DIFF_CMD :: flagsOf argv) := by
    by_cases hlen : argv.length = 3
    · rw [if_pos hlen]
      simp only [flagsOf, if_pos hlen]
      have := argsShape_add _ [DIFF_CMD] "-u" hbase0
      simpa using this
    · rw [if_neg hlen]
      simp only [flagsOf, if_neg hlen]
      have := argsShape_foldl _ [DIFF_CMD]
        ((argv.drop 1).take (argv.length - 3)) hbase0
      simpa using this
  have hprodA := producer_spec sF (env.getD DEFAULT_SHELL)
    (argv.getD (argv.length - 2) "") pa1 ⟨KObj.writeEnd s0.nextPipe, true⟩
    hFwf hFpa1
  have hprodB := producer_spec sF (env.getD DEFAULT_SHELL)
    (argv.getD (argv.length - 1) "") pb1
    ⟨KObj.writeEnd (s0.nextPipe + 1), true⟩ hFwf hFpb1
  have hcons := consumer_spec sF
    (if argv.length = 3 then args_add (args_add (args_init 2) DIFF_CMD) "-u"
     else ((argv.drop 1).take (argv.length - 3)).foldl args_add
       (args_add (args_init 2) DIFF_CMD))
    (DIFF_CMD :: flagsOf argv)
    (argv.getD (argv.length - 2) "") (argv.getD (argv.length - 1) "")
    pa0 pb0 s0.nextPipe (s0.nextPipe + 1) hFwf hbase hFpa0 hFpb0 h5a' h5c'
  have honly : ∀ i e, lookupFd sF i = some e →
      (e.obj = KObj.readEnd s0.nextPipe ∨
       e.obj = KObj.writeEnd s0.nextPipe ∨
       e.obj = KObj.readEnd (s0.nextPipe + 1) ∨
       e.obj = KObj.writeEnd (s0.nextPipe + 1)) →
      i = pa0 ∨ i = pa1 ∨ i = pb0 ∨ i = pb1 := by
    intro i e hl href
    by_cases h0 : i = pa0
    · exact Or.inl h0
    by_cases h1 : i = pa1
    · exact Or.inr (Or.inl h1)
    by_cases h2 : i = pb0
    · exact Or.inr (Or.inr (Or.inl h2))
    by_cases h3 : i = pb1
    · exact Or.inr (Or.inr (Or.inr h3))
    exfalso
    rcases hFframe i h0 h1 h2 h3 with hsame | hnone
    · rw [hsame] at hl
      have hob := sysWF_obj_of_lookup s0 i e hwf hl
      rcases href with h | h | h | h <;>
        · rw [h] at hob
          simp only [objWF, decide_eq_true_eq] at hob
          omega
    · rw [hnone] at hl
      exact Option.noConfusion hl
  refine ⟨{ cmda := argv.getD (argv.length - 2) ""
            cmdb := argv.getD (argv.length - 1) ""
            shell := env.getD DEFAULT_SHELL
            pa := (pa0, pa1)
            pb := (pb0, pb1)
            forkSys := sF
            prodA := producer sF (env.getD DEFAULT_SHELL)
              (argv.getD (argv.length - 2) "") pa1
            prodB := producer sF (env.getD DEFAULT_SHELL)
              (argv.getD (argv.length - 1) "") pb1
            cons := consumer sF
              (if argv.length = 3 then
                args_add (args_add (args_init 2) DIFF_CMD) "-u"
               else ((argv.drop 1).take (argv.length - 3)).foldl args_add
                 (args_add (args_init 2) DIFF_CMD))
              (argv.getD (argv.length - 2) "")
              (argv.getD (argv.length - 1) "") pa0 pb0
            parentSys := sys_close (sys_close (sys_close (sys_close sF pa0)
              pa1) pb0) pb1
            waitStatus := st
            exitCode := 0 },
    ?_, rfl, rfl, rfl,
    show DIFF_MAXFD < pa0 by omega, show DIFF_MAXFD < pa1 by omega,
    show DIFF_MAXFD < pb0 by omega, show DIFF_MAXFD < pb1 by omega,
    hFpa0, hFpa1, hFpb0, hFpb1, honly, hprodA, hprodB, hcons, rfl, rfl⟩
  simp only [run_main]
  rw [if_neg (by omega), hsp]

/-! ## Claim theorems -/

/-- Claim C1: for every run that reaches the forking stage (well-formed
initial descriptor state, at least two positional commands), both ends of
both pipes are re-homed via `xdup_ge` (the `duplicateAtOrAbove` primitive)
to descriptor numbers strictly greater than `DIFF_MAXFD = 4`, each
duplicate refers to the same pipe stream as the original with
close-on-exec set, and at fork time no other descriptor — in particular
none of the original low-numbered ones, which were closed — refers to
either pipe; this holds for every initial descriptor state. -/
theorem C1_descriptor_floor (s0 : Sys) (env : Option String)
    (argv : List String) (st : Nat) (hwf : sysWF s0 = true)
    (hargc : 3 ≤ argv.length) :
    ∃ r, run_main s0 env argv st = Outcome.ok r ∧
      (DIFF_MAXFD < r.pa.1 ∧ DIFF_MAXFD < r.pa.2 ∧
       DIFF_MAXFD < r.pb.1 ∧ DIFF_MAXFD < r.pb.2) ∧
      lookupFd r.forkSys r.pa.1 = some ⟨KObj.readEnd s0.nextPipe, true⟩ ∧
      lookupFd r.forkSys r.pa.2 = some ⟨KObj.writeEnd s0.nextPipe, true⟩ ∧
      lookupFd r.forkSys r.pb.1 =
        some ⟨KObj.readEnd (s0.nextPipe + 1), true⟩ ∧
      lookupFd r.forkSys r.pb.2 =
        some ⟨KObj.writeEnd (s0.nextPipe + 1), true⟩ ∧
      (∀ i e, lookupFd r.forkSys i = some e →
        (e.obj = KObj.readEnd s0.nextPipe ∨
         e.obj = KObj.writeEnd s0.nextPipe ∨
         e.obj = KObj.readEnd (s0.nextPipe + 1) ∨
         e.obj = KObj.writeEnd (s0.nextPipe + 1)) →
        i = r.pa.1 ∨ i = r.pa.2 ∨ i = r.pb.1 ∨ i = r.pb.2) := by
  obtain ⟨r, hrun, -, -, -, h1, h2, h3, h4, h5, h6, h7, h8, h9, -, -, -, -,
    -⟩ := run_main_spec s0 env argv st hwf hargc
  exact ⟨r, hrun, ⟨h1, h2, h3, h4⟩, h5, h6, h7, h8, h9⟩

theorem C1_descriptor_floor_witness :
    sysWF initSys = true ∧
    3 ≤ (["ediff", "echo a", "echo b"] : List String).length ∧
    (∃ r, run_main initSys none ["ediff", "echo a", "echo b"] 0 =
        Outcome.ok r ∧
      (DIFF_MAXFD < r.pa.1 ∧ DIFF_MAXFD < r.pa.2 ∧
       DIFF_MAXFD < r.pb.1 ∧ DIFF_MAXFD < r.pb.2) ∧
      lookupFd r.forkSys r.pa.1 = some ⟨KObj.readEnd 0, true⟩ ∧
      lookupFd r.forkSys r.pa.2 = some ⟨KObj.writeEnd 0, true⟩ ∧
      lookupFd r.forkSys r.pb.1 = some ⟨KObj.readEnd 1, true⟩ ∧
      lookupFd r.forkSys r.pb.2 = some ⟨KObj.writeEnd 1, true⟩ ∧
      (∀ i e, lookupFd r.forkSys i = some e →
        (e.obj = KObj.readEnd 0 ∨ e.obj = KObj.writeEnd 0 ∨
         e.obj = KObj.readEnd 1 ∨ e.obj = KObj.writeEnd 1) →
        i = r.pa.1 ∨ i = r.pa.2 ∨ i = r.pb.1 ∨ i = r.pb.2)) :=
  ⟨by decide, by decide,
    C1_descriptor_floor initSys none ["ediff", "echo a", "echo b"] 0
      (by decide) (by decide)⟩

/-- Claim C2: in the consumer child, the first pipe's read end is bound to
descriptor 3 and the second pipe's read end to descriptor 4 with
close-on-exec clear on both, standard input is rebound to an always-EOF
source, and the argument vector is extended for each input in order with
`--label`, the original command string, and the `/proc/self/fd/N`
pseudo-file path, before the image is replaced with the differencing
program (`execvp` of `DIFF_CMD`). -/
theorem C2_consumer_binding (s0 : Sys) (env : Option String)
    (argv : List String) (st : Nat) (hwf : sysWF s0 = true)
    (hargc : 3 ≤ argv.length) :
    ∃ r ec, run_main s0 env argv st = Outcome.ok r ∧ r.cons = some ec ∧
      lookupFd ec.sys 3 = some ⟨KObj.readEnd s0.nextPipe, false⟩ ∧
      lookupFd ec.sys 4 = some ⟨KObj.readEnd (s0.nextPipe + 1), false⟩ ∧
      alwaysEofAt ec.sys 0 ∧ sys_read ec.sys 0 = ReadResult.eof ∧
      ec.prog = DIFF_CMD ∧ ec.viaPath = true ∧
      ec.argv = DIFF_CMD :: flagsOf argv ++
        ["--label", r.cmda, "/proc/self/fd/3",
         "--label", r.cmdb, "/proc/self/fd/4"] ∧
      r.cmda = argv.getD (argv.length - 2) "" ∧
      r.cmdb = argv.getD (argv.length - 1) "" := by
  obtain ⟨r, hrun, hcmda, hcmdb, -, -, -, -, -, -, -, -, -, -, -, -, hcons,
    -, -⟩ := run_main_spec s0 env argv st hwf hargc
  obtain ⟨ec, hec, hprog, hpath, h3, h4, heof, hargv⟩ := hcons
  exact ⟨r, ec, hrun, hec, h3, h4, heof, alwaysEofAt_read _ _ heof, hprog,
    hpath, hargv, hcmda, hcmdb⟩

theorem C2_consumer_binding_witness :
    sysWF initSys = true ∧
    3 ≤ (["ediff", "echo a", "echo b"] : List String).length ∧
    (∃ r ec, run_main initSys none ["ediff", "echo a", "echo b"] 0 =
        Outcome.ok r ∧ r.cons = some ec ∧
      lookupFd ec.sys 3 = some ⟨KObj.readEnd 0, false⟩ ∧
      lookupFd ec.sys 4 = some ⟨KObj.readEnd 1, false⟩ ∧
      alwaysEofAt ec.sys 0 ∧ sys_read ec.sys 0 = ReadResult.eof ∧
      ec.prog = DIFF_CMD ∧ ec.viaPath = true ∧
      ec.argv = DIFF_CMD :: flagsOf ["ediff", "echo a", "echo b"] ++
        ["--label", r.cmda, "/proc/self/fd/3",
         "--label", r.cmdb, "/proc/self/fd/4"] ∧
      r.cmda = "echo a" ∧ r.cmdb = "echo b") :=
  ⟨by decide, by decide,
    C2_consumer_binding initSys none ["ediff", "echo a", "echo b"] 0
      (by decide) (by decide)⟩

/-- Claim C3: each producer child rebinds standard output (descriptor 1)
to its pipe's write end with close-on-exec clear, rebinds standard input
to an always-EOF source, and replaces its image with
`interpreter -c command` where the interpreter is `SHELL` if set and
`DEFAULT_SHELL` otherwise (the exec is the terminal event of the child in
this model: it never returns on success). -/
theorem C3_producer_redirection (s0 : Sys) (env : Option String)
    (argv : List String) (st : Nat) (hwf : sysWF s0 = true)
    (hargc : 3 ≤ argv.length) :
    ∃ r ecA ecB, run_main s0 env argv st = Outcome.ok r ∧
      r.prodA = some ecA ∧ r.prodB = some ecB ∧
      r.shell = env.getD DEFAULT_SHELL ∧
      (env = none → r.shell = DEFAULT_SHELL) ∧
      (∀ sh, env = some sh → r.shell = sh) ∧
      ecA.prog = r.shell ∧ ecA.argv = [r.shell, "-c", r.cmda] ∧
      ecA.viaPath = false ∧
      lookupFd ecA.sys 1 = some ⟨KObj.writeEnd s0.nextPipe, false⟩ ∧
      alwaysEofAt ecA.sys 0 ∧ sys_read ecA.sys 0 = ReadResult.eof ∧
      ecB.prog = r.shell ∧ ecB.argv = [r.shell, "-c", r.cmdb] ∧
      ecB.viaPath = false ∧
      lookupFd ecB.sys 1 = some ⟨KObj.writeEnd (s0.nextPipe + 1), false⟩ ∧
      alwaysEofAt ecB.sys 0 ∧ sys_read ecB.sys 0 = ReadResult.eof ∧
      r.cmda = argv.getD (argv.length - 2) "" ∧
      r.cmdb = argv.getD (argv.length - 1) "" := by
  obtain ⟨r, hrun, hcmda, hcmdb, hshell, -, -, -, -, -, -, -, -, -, hpA,
    hpB, -, -, -⟩ := run_main_spec s0 env argv st hwf hargc
  obtain ⟨ecA, heA, hAprog, hAargv, hApath, hA1, hAeof⟩ := hpA
  obtain ⟨ecB, heB, hBprog, hBargv, hBpath, hB1, hBeof⟩ := hpB
  refine ⟨r, ecA, ecB, hrun, heA, heB, hshell, ?_, ?_, hAprog, hAargv,
    hApath, hA1, hAeof, alwaysEofAt_read _ _ hAeof, hBprog, hBargv, hBpath,
    hB1, hBeof, alwaysEofAt_read _ _ hBeof, hcmda, hcmdb⟩
  · intro he
    rw [hshell, he]
    rfl
  · intro sh he
    rw [hshell, he]
    rfl

theorem C3_producer_redirection_witness :
    sysWF initSys = true ∧
    3 ≤ (["ediff", "echo a", "echo b"] : List String).length ∧
    (∃ r ecA ecB,
      run_main initSys (some "/bin/bash") ["ediff", "echo a", "echo b"] 0 =
        Outcome.ok r ∧
      r.prodA = some ecA ∧ r.prodB = some ecB ∧
      r.shell = (some "/bin/bash").getD DEFAULT_SHELL ∧
      (some "/bin/bash" = none → r.shell = DEFAULT_SHELL) ∧
      (∀ sh, some "/bin/bash" = some sh → r.shell = sh) ∧
      ecA.prog = r.shell ∧ ecA.argv = [r.shell, "-c", r.cmda] ∧
      ecA.viaPath = false ∧
      lookupFd ecA.sys 1 = some ⟨KObj.writeEnd 0, false⟩ ∧
      alwaysEofAt ecA.sys 0 ∧ sys_read ecA.sys 0 = ReadResult.eof ∧
      ecB.prog = r.shell ∧ ecB.argv = [r.shell, "-c", r.cmdb] ∧
      ecB.viaPath = false ∧
      lookupFd ecB.sys 1 = some ⟨KObj.writeEnd 1, false⟩ ∧
      alwaysEofAt ecB.sys 0 ∧ sys_read ecB.sys 0 = ReadResult.eof ∧
      r.cmda = "echo a" ∧ r.cmdb = "echo b") :=
  ⟨by decide, by decide,
    C3_producer_redirection initSys (some "/bin/bash")
      ["ediff", "echo a", "echo b"] 0 (by decide) (by decide)⟩

/-- Claim C4: with fewer than two positional commands (`argc < 3`) the
program writes the usage message to standard error and exits with code 2;
the `Outcome.usage` constructor carries the unchanged process state and no
children, so no pipe, fork or exec is attempted. -/
theorem C4_usage_error (s0 : Sys) (env : Option String) (argv : List String)
    (st : Nat) (h : argv.length < 3) :
    run_main s0 env argv st =
      Outcome.usage s0 (usageMsg (argv.getD 0 "")) 2 := by
  simp only [run_main]
  rw [if_pos h]

theorem C4_usage_error_witness :
    (["ediff"] : List String).length < 3 ∧
    run_main initSys none ["ediff"] 0 =
      Outcome.usage initSys (usageMsg "ediff") 2 :=
  ⟨by decide, C4_usage_error initSys none ["ediff"] 0 (by decide)⟩

/-- Claim C5: with N > 0 flags between the program name and the two final
command strings (`argc > 3`), exactly those N flags appear, in their
original order, in the constructed argument vector after the
differencing-program name and before the two label/path pairs. -/
theorem C5_flag_forwarding (s0 : Sys) (env : Option String)
    (argv : List String) (st : Nat) (hwf : sysWF s0 = true)
    (hargc : 4 ≤ argv.length) :
    ∃ r ec, run_main s0 env argv st = Outcome.ok r ∧ r.cons = some ec ∧
      ec.argv = DIFF_CMD :: (argv.drop 1).take (argv.length - 3) ++
        ["--label", argv.getD (argv.length - 2) "", "/proc/self/fd/3",
         "--label", argv.getD (argv.length - 1) "", "/proc/self/fd/4"] := by
  obtain ⟨r, hrun, hcmda, hcmdb, -, -, -, -, -, -, -, -, -, -, -, -, hcons,
    -, -⟩ := run_main_spec s0 env argv st hwf (by omega)
  obtain ⟨ec, hec, -, -, -, -, -, hargv⟩ := hcons
  rw [hcmda, hcmdb] at hargv
  simp only [flagsOf] at hargv
  rw [if_neg (by omega)] at hargv
  exact ⟨r, ec, hrun, hec, hargv⟩

theorem C5_flag_forwarding_witness :
    sysWF initSys = true ∧
    4 ≤ (["ediff", "-w", "echo a", "echo b"] : List String).length ∧
    (∃ r ec,
      run_main initSys none ["ediff", "-w", "echo a", "echo b"] 0 =
        Outcome.ok r ∧ r.cons = some ec ∧
      ec.argv = DIFF_CMD :: ["-w"] ++
        ["--label", "echo a", "/proc/self/fd/3",
         "--label", "echo b", "/proc/self/fd/4"]) :=
  ⟨by decide, by decide,
    C5_flag_forwarding initSys none ["ediff", "-w", "echo a", "echo b"] 0
      (by decide) (by decide)⟩

/-- Claim C6: with exactly two positional commands and no flags
(`argc = 3`), the argument vector passed to the differencing program
contains the single default unified-format flag `-u` between the program
name and the label/path pairs. -/
theorem C6_default_unified (s0 : Sys) (env : Option String)
    (argv : List String) (st : Nat) (hwf : sysWF s0 = true)
    (hlen : argv.length = 3) :
    ∃ r ec, run_main s0 env argv st = Outcome.ok r ∧ r.cons = some ec ∧
      ec.argv = [DIFF_CMD, "-u",
        "--label", argv.getD 1 "", "/proc/self/fd/3",
        "--label", argv.getD 2 "", "/proc/self/fd/4"] := by
  obtain ⟨r, hrun, hcmda, hcmdb, -, -, -, -, -, -, -, -, -, -, -, -, hcons,
    -, -⟩ := run_main_spec s0 env argv st hwf (by omega)
  obtain ⟨ec, hec, -, -, -, -, -, hargv⟩ := hcons
  rw [hcmda, hcmdb] at hargv
  simp only [flagsOf] at hargv
  rw [if_pos hlen, hlen] at hargv
  exact ⟨r, ec, hrun, hec, hargv⟩

theorem C6_default_unified_witness :
    sysWF initSys = true ∧
    (["ediff", "echo a", "echo b"] : List String).length = 3 ∧
    (∃ r ec, run_main initSys none ["ediff", "echo a", "echo b"] 0 =
        Outcome.ok r ∧ r.cons = some ec ∧
      ec.argv = [DIFF_CMD, "-u",
        "--label", "echo a", "/proc/self/fd/3",
        "--label", "echo b", "/proc/self/fd/4"]) :=
  ⟨by decide, by decide,
    C6_default_unified initSys none ["ediff", "echo a", "echo b"] 0
      (by decide) (by decide)⟩

/-- Claim C7: every invocation that passes the usage check and meets no
fatal internal error ends with the parent exiting 0 after collecting the
consumer child's status via `waitpid` — for every possible status, i.e.
regardless of whether differences were found or the consumer failed. -/
theorem C7_always_exit_zero (s0 : Sys) (env : Option String)
    (argv : List String) (st : Nat) (hwf : sysWF s0 = true)
    (hargc : 3 ≤ argv.length) :
    ∃ r, run_main s0 env argv st = Outcome.ok r ∧ r.waitStatus = st ∧
      r.exitCode = 0 := by
  obtain ⟨r, hrun, -, -, -, -, -, -, -, -, -, -, -, -, -, -, -, hwait,
    hexit⟩ := run_main_spec s0 env argv st hwf hargc
  exact ⟨r, hrun, hwait, hexit⟩

theorem C7_always_exit_zero_witness :
    sysWF initSys = true ∧
    3 ≤ (["ediff", "echo a", "echo b"] : List String).length ∧
    (∃ r, run_main initSys none ["ediff", "echo a", "echo b"] 7 =
        Outcome.ok r ∧ r.waitStatus = 7 ∧ r.exitCode = 0) :=
  ⟨by decide, by decide,
    C7_always_exit_zero initSys none ["ediff", "echo a", "echo b"] 7
      (by decide) (by decide)⟩

/-- Claim C8: for every ArgVector built by `args_init` (positive starting
capacity) followed by any sequence of `args_add` pushes, after every
mutation the slot at index `argc` holds the NULL sentinel (the vector is a
valid null-terminated argument vector), each occupied slot holds the
pushed string (an independent copy, by value in this model), and when
`argc + 1` equals `capacity` at push entry the capacity is doubled by the
push. -/
theorem C8_argvector_invariants (cap : Nat) (hcap : 0 < cap)
    (ss : List String) :
    (args_run cap ss).argv.getD (args_run cap ss).argc Slot.undef =
      Slot.null ∧
    (∀ i, i < (args_run cap ss).argc →
      (args_run cap ss).argv.getD i Slot.undef = Slot.str (ss.getD i "")) ∧
    (∀ (b : Args) (t : String), b.argc + 1 = b.capacity →
      (args_add b t).capacity = b.capacity * 2) := by
  have hs := argsShape_run cap hcap ss
  refine ⟨argsShape_sentinel _ _ hs, ?_, ?_⟩
  · intro i hi
    exact argsShape_slot _ _ hs i hi
  · intro b t hbt
    simp [args_add, if_pos hbt]

theorem C8_argvector_invariants_witness :
    0 < 2 ∧
    ((args_run 2 ["diff", "-u"]).argv.getD (args_run 2 ["diff", "-u"]).argc
        Slot.undef = Slot.null ∧
     (∀ i, i < (args_run 2 ["diff", "-u"]).argc →
       (args_run 2 ["diff", "-u"]).argv.getD i Slot.undef =
         Slot.str (["diff", "-u"].getD i "")) ∧
     (∀ (b : Args) (t : String), b.argc + 1 = b.capacity →
       (args_add b t).capacity = b.capacity * 2)) :=
  ⟨by decide, C8_argvector_invariants 2 (by decide) ["diff", "-u"]⟩

/-- Claim C9: `closed_reader` creates a fresh pipe (the id `s.nextPipe`,
which was not yet handed out), closes its write end immediately (no
descriptor of the resulting state refers to that pipe's write end), and
leaves the target descriptor referring to the pipe's read end, so that a
read from that descriptor returns end-of-stream with no data. -/
theorem C9_closed_reader_eof (s : Sys) (fd : Nat) (hwf : sysWF s = true) :
    ∃ s', closed_reader s fd = some s' ∧
      lookupFd s' fd = some ⟨KObj.readEnd s.nextPipe, false⟩ ∧
      hasWriter s' s.nextPipe = false ∧
      sys_read s' fd = ReadResult.eof ∧
      s'.nextPipe = s.nextPipe + 1 := by
  obtain ⟨s', heq, ⟨pid, hl, hw⟩, hframe, hnp, -⟩ :=
    closed_reader_eof s fd hwf
  obtain ⟨s'', heq2, hl2, -, -⟩ := closed_reader_spec s fd
  rw [heq] at heq2
  cases heq2
  have hpid : pid = s.nextPipe := by
    rw [hl] at hl2
    simp only [Option.some.injEq, FdEntry.mk.injEq, KObj.readEnd.injEq]
      at hl2
    exact hl2.1
  subst hpid
  exact ⟨s', heq, hl, hw, alwaysEofAt_read _ _ ⟨s.nextPipe, hl, hw⟩, hnp⟩

theorem C9_closed_reader_eof_witness :
    sysWF initSys = true ∧
    (∃ s', closed_reader initSys 0 = some s' ∧
      lookupFd s' 0 = some ⟨KObj.readEnd 0, false⟩ ∧
      hasWriter s' 0 = false ∧
      sys_read s' 0 = ReadResult.eof ∧
      s'.nextPipe = 1) :=
  ⟨by decide, C9_closed_reader_eof initSys 0 (by decide)⟩

/-- Claim C10: the `assert(argc < capacity)` at the entry of `args_add` is
valid in every reachable ArgVector state: `args_init` with positive
starting capacity establishes `argc < capacity`, every `args_add`
re-establishes it on return (doubling the capacity exactly when
`argc + 1` would reach it), so no sequence of pushes after a valid init
can violate the assertion. -/
theorem C10_push_assert_valid (cap : Nat) (hcap : 0 < cap)
    (ss : List String) :
    (args_init cap).argc < (args_init cap).capacity ∧
    (∀ (b : Args) (t : String), b.argc < b.capacity →
      (args_add b t).argc < (args_add b t).capacity) ∧
    (args_run cap ss).argc < (args_run cap ss).capacity := by
  refine ⟨by simpa [args_init] using hcap, ?_, ?_⟩
  · intro b t hb
    by_cases hg : b.argc + 1 = b.capacity
    · simp only [args_add, if_pos hg]
      omega
    · simp only [args_add, if_neg hg]
      omega
  · exact (argsShape_run cap hcap ss).2.2.1

theorem C10_push_assert_valid_witness :
    0 < 2 ∧
    ((args_init 2).argc < (args_init 2).capacity ∧
     (∀ (b : Args) (t : String), b.argc < b.capacity →
       (args_add b t).argc < (args_add b t).capacity) ∧
     (args_run 2 ["diff", "-u", "x"]).argc <
       (args_run 2 ["diff", "-u", "x"]).capacity) :=
  ⟨by decide, C10_push_assert_valid 2 (by decide) ["diff", "-u", "x"]⟩
